import Mathlib

/-!
Verification of the replacement-selection engine of `Plex.upgrade`
(`plex_upgrade.py`), shallowly embedded in Lean 4.

The embedding covers the quality policy (`check_quality_requirements`),
the candidate filtering/ranking pipeline, the manual/simple replacement
resolvers, and the scan/commit structure of `upgrade_playlist`, together
with the `__main__` wiring that forces flags on a dry run.

Modelling conventions:
* plexapi `Audio` objects are flattened into a `Track` record holding the
  fields the engine reads (`title`, `originalTitle`, `grandparentTitle`,
  `media[0].audioCodec`, `media[0].bitrate`).  `originalTitle` and
  `bitrate` may be `None` in plexapi and are modelled as `Option`.
* Python's stable `sorted(key=...)` is modelled by Mathlib's
  `List.insertionSort`, which is likewise a stable sort: for a total
  transitive relation the stable-sorted permutation is unique, so the two
  agree on every input.
* `str.casefold()` is modelled as per-character `Char.toLower` (adequate
  for the case-insensitivity questions at issue here).
* Interactive `input()` responses are modelled as a list of pre-parsed
  responses consumed left to right, mirroring the stdin stream.
-/

namespace PlexUpgrade

/-- A playlist/library track, flattened from the plexapi `Audio` object.
`originalTitle` (track-level artist) may be `None`; `bitrate` is
`media[0].bitrate`, which may be `None` for items without media info. -/
structure Track where
  title : String
  originalTitle : Option String
  grandparentTitle : String
  audioCodec : String
  bitrate : Option Int
deriving DecidableEq

/-- `artist(item)` (plex_upgrade.py:77-90): `item.originalTitle or
item.grandparentTitle`.  Python's `or` falls through on every falsy value,
so an empty-string `originalTitle` also yields the album artist. -/
def artistName (t : Track) : String :=
  match t.originalTitle with
  | some s => if s = "" then t.grandparentTitle else s
  | none => t.grandparentTitle

/-- The key of the artist sort at plex_upgrade.py:419-424:
`getattr(x, "originalTitle") if getattr(x, "originalTitle") is not None
else getattr(x, "grandparentTitle")`.  Unlike `artistName`, an
empty-string `originalTitle` is used as the key. -/
def sortKey (t : Track) : String :=
  match t.originalTitle with
  | some s => s
  | none => t.grandparentTitle

/-- Model of `str.casefold()`: per-character lowering. -/
def casefold (s : String) : String :=
  ⟨s.data.map Char.toLower⟩

/-- Does `hay` start with `needle`? (helper for substring containment). -/
def charsStartWith : List Char → List Char → Bool
  | [], _ => true
  | _ :: _, [] => false
  | c :: cs, d :: ds => c == d && charsStartWith cs ds

/-- Contiguous-substring test on character lists. -/
def charsContain (needle : List Char) : List Char → Bool
  | [] => needle.isEmpty
  | d :: ds => charsStartWith needle (d :: ds) || charsContain needle ds

/-- Python's `needle in hay` on strings: contiguous substring containment. -/
def pySubstr (needle hay : String) : Bool :=
  charsContain needle.data hay.data

/-- Lexicographic `≤` on character lists by code point — Python's string
comparison order. -/
def charsLe : List Char → List Char → Bool
  | [], _ => true
  | _ :: _, [] => false
  | c :: cs, d :: ds =>
    c.toNat < d.toNat || (c.toNat == d.toNat && charsLe cs ds)

/-- Python's `s <= t` on strings (lexicographic by code point). -/
def strLe (a b : String) : Bool := charsLe a.data b.data

/-- `check_quality_requirements` (plex_upgrade.py:222-248).  The two
config flags are the truthiness of `upgrade.force_all` and
`upgrade.force_lossless`; the codec and bitrate are
`item.media[0].audioCodec` and `item.media[0].bitrate`.  Python's
`and`/`or` precedence makes the default branch
`not ((mp3 and < 320) or (aac and < 256))`. -/
def check_quality_requirements (force_all force_lossless : Bool)
    (audioCodec : String) (bitrate : Int) : Bool :=
  if force_all then false
  else if force_lossless then audioCodec == "alac" || audioCodec == "flac"
  else !((audioCodec == "mp3" && decide (bitrate < 320))
      || (audioCodec == "aac" && decide (bitrate < 256)))

/-- Bitrate of a track as used by the bitrate sort key at
plex_upgrade.py:425; every track reaching that sort has already passed
the truthiness filter at line 413, so the `none` default is unreached
there. -/
def bitKey (t : Track) : Int := t.bitrate.getD 0

/-- The candidate filtering and ranking pipeline of `upgrade_playlist`
(plex_upgrade.py:412-425), applied to the library search results:

1. keep `r` iff `r.media[0].bitrate` is truthy (not `None`, not `0`) and
   strictly greater than the original's bitrate (line 413);
2. keep `r` iff `artist(item).casefold() in artist(r).casefold()`
   (line 416) — the original's artist must be a substring of the
   candidate's artist;
3. stable-sort ascending by the artist sort key (lines 419-424);
4. stable-sort by bitrate descending (line 425).

If the original track has no bitrate, Python would raise `TypeError` in
step 1 the moment a candidate with a truthy bitrate is compared; playlist
tracks always carry media info, so that branch is modelled as producing
no candidates. -/
def rank (item : Track) (searchResults : List Track) : List Track :=
  match item.bitrate with
  | none => []
  | some ob =>
    let r1 := searchResults.filter fun r =>
      match r.bitrate with
      | some b => !(b == 0) && decide (ob < b)
      | none => false
    let r2 := r1.filter fun r =>
      pySubstr (casefold (artistName item)) (casefold (artistName r))
    let r3 := r2.insertionSort fun a b => strLe (sortKey a) (sortKey b) = true
    r3.insertionSort fun a b => bitKey b ≤ bitKey a

/-- Python list indexing `xs[i]`, including negative indices counting
from the end; `none` models `IndexError`. -/
def pyGet {α : Type} (xs : List α) (i : Int) : Option α :=
  if 0 ≤ i then xs[i.toNat]?
  else if (-i).toNat ≤ xs.length then xs[xs.length - (-i).toNat]?
  else none

/-- One line typed at the manual-mode prompt (plex_upgrade.py:458),
pre-classified by how `if index:` and `int(index)` treat it: `empty` is
the falsy empty string, `junk` is a non-empty string on which `int()`
raises `ValueError`, `num i` is a string parsing to the integer `i`. -/
inductive Resp where
  | empty
  | junk
  | num (i : Int)
deriving DecidableEq

/-- The manual-mode selection loop (plex_upgrade.py:455-471):
`while True: try: index = input(); if index: replacement =
replacements[int(index)] ...; break; except (ValueError, IndexError):
pass`.  It consumes responses until an empty response (break with no
selection) or a valid index (break with that candidate); `ValueError`
and `IndexError` restart the loop.  The result is `none` when the
response stream is exhausted, modelling a loop that never breaks. -/
def manualLoop (replacements : List Track) :
    List Resp → Option (Option Track × List Resp)
  | [] => none
  | r :: rest =>
    match r with
    | .empty => some (none, rest)
    | .junk => manualLoop replacements rest
    | .num i =>
      match pyGet replacements i with
      | some t => some (some t, rest)
      | none => manualLoop replacements rest

/-- The two quality-mode flags read from `config` by
`check_quality_requirements`. -/
structure UpgradeConfig where
  force_all : Bool
  force_lossless : Bool
deriving DecidableEq

/-- `check_quality_requirements(item)` applied to a track.  A track
without a bitrate would make Python raise `TypeError` when the codec is
"mp3" or "aac"; such malformed tracks are modelled as failing the bar
(the claims below never exercise that corner). -/
def meetsQuality (cfg : UpgradeConfig) (t : Track) : Bool :=
  check_quality_requirements cfg.force_all cfg.force_lossless
    t.audioCodec (t.bitrate.getD 0)

/-- The three accumulator lists of the scan loop
(plex_upgrade.py:394-396): `items_to_remove`, `items_to_add`,
`items_ommited` (sic). -/
structure ScanState where
  toRemove : List Track
  toAdd : List Track
  omitted : List Track
deriving DecidableEq

/-- One iteration of the scan loop (plex_upgrade.py:401-483) for a single
playlist item.  `search` is the external catalog
(`server.library.search` with the punctuation-normalized title/artist
query, treated as a black box per track); `responses` is the remaining
stdin stream for manual mode.  Returns `none` when manual mode exhausts
the stream (the interactive loop would block forever). -/
def scanItem (cfg : UpgradeConfig) (search : Track → List Track)
    (simple_mode : Bool) (item : Track) (st : ScanState)
    (responses : List Resp) : Option (ScanState × List Resp) :=
  if meetsQuality cfg item then some (st, responses)
  else
    match rank item (search item) with
    | [] => some ({ st with omitted := st.omitted ++ [item] }, responses)
    | repl0 :: _ =>
      if simple_mode then
        some ({ st with toAdd := st.toAdd ++ [repl0],
                        toRemove := st.toRemove ++ [item] }, responses)
      else
        match manualLoop (rank item (search item)) responses with
        | none => none
        | some (some repl, rest) =>
          some ({ st with toAdd := st.toAdd ++ [repl],
                          toRemove := st.toRemove ++ [item] }, rest)
        | some (none, rest) =>
          some ({ st with omitted := st.omitted ++ [item] }, rest)

/-- The scan loop over all playlist items, threading the accumulator
state and the response stream. -/
def scanItems (cfg : UpgradeConfig) (search : Track → List Track)
    (simple_mode : Bool) : List Track → ScanState → List Resp →
    Option (ScanState × List Resp)
  | [], st, responses => some (st, responses)
  | item :: items, st, responses =>
    match scanItem cfg search simple_mode item st responses with
    | none => none
    | some (st2, rest) => scanItems cfg search simple_mode items st2 rest

/-- A playlist handle; `pid` is the server-side identity of the
playlist (its rating key), used to tell the original playlist apart from
a freshly created copy. -/
structure Playlist where
  pid : Nat
  title : String
  summary : String
  playlistType : String
  tracks : List Track
deriving DecidableEq

/-- A mutation issued against the remote server: `Playlist.create`,
`playlist.removeItems`, or `playlist.addItems`, each recording the
playlist it targets. -/
inductive Effect where
  | create (pid : Nat) (title summary playlistType : String)
      (items : List Track)
  | removeItems (pid : Nat) (items : List Track)
  | addItems (pid : Nat) (items : List Track)
deriving DecidableEq

/-- The playlist a mutation effect removes from / adds to (`none` for
playlist creation). -/
def mutatesPid : Effect → Option Nat
  | .create _ _ _ _ _ => none
  | .removeItems p _ => some p
  | .addItems p _ => some p

/-- Result of one `upgrade_playlist` run: the returned playlist handle,
the trace of server mutations issued, and the final scan accumulators. -/
structure UpgradeResult where
  playlist : Playlist
  effects : List Effect
  scan : ScanState
deriving DecidableEq

/-- `upgrade_playlist` (plex_upgrade.py:345-531).  `freshPid` is the
server-assigned identity of the playlist created when duplicating.
Structure mirrors the source: duplicate (only when `duplicate and not
dry`) creates `"Copy of {title}"` with the same items/summary/type and
rebinds the working playlist to it; the scan loop accumulates
remove/add/omit; the commit phase (only when `not dry`) issues
`removeItems` then `addItems`, each only when its list is non-empty.
The post-commit spotdl download is console/subprocess glue issuing no
playlist mutation and is outside the model.  Returns `none` only when a
manual-mode prompt exhausts the response stream. -/
def upgrade_playlist (cfg : UpgradeConfig) (search : Track → List Track)
    (freshPid : Nat) (playlist : Playlist)
    (duplicate simple_mode dry : Bool) (responses : List Resp) :
    Option UpgradeResult :=
  let items := playlist.tracks
  let work : Playlist × List Track × List Effect :=
    if duplicate && !dry then
      let np : Playlist :=
        ⟨freshPid, "Copy of " ++ playlist.title, playlist.summary,
          playlist.playlistType, items⟩
      (np, np.tracks,
        [Effect.create freshPid np.title np.summary np.playlistType items])
    else (playlist, items, [])
  match scanItems cfg search simple_mode work.2.1 ⟨[], [], []⟩ responses with
  | none => none
  | some (st, _) =>
    if dry then some ⟨work.1, work.2.2, st⟩
    else
      let fx1 := if st.toRemove.length ≠ 0 then
        [Effect.removeItems work.1.pid st.toRemove] else []
      let fx2 := if st.toAdd.length ≠ 0 then
        [Effect.addItems work.1.pid st.toAdd] else []
      some ⟨work.1, work.2.2 ++ fx1 ++ fx2, st⟩

/-- The `__main__` wiring (plex_upgrade.py:557): `simple_mode = True if
dry else choose_simple_replacement_mode()`. -/
def mainModeSimple (dry userChoice : Bool) : Bool :=
  if dry then true else userChoice

/-- The `__main__` wiring (plex_upgrade.py:560): `duplicate = False if
dry else choose_duplication()`. -/
def mainModeDuplicate (dry userChoice : Bool) : Bool :=
  if dry then false else userChoice

/-- C1: the quality check returns false for every track in force_all
mode; in force_lossless mode it returns true iff the codec is "alac" or
"flac"; in default mode it returns true unless (mp3 and bitrate < 320) or
(aac and bitrate < 256), with exact boundaries mp3@320 pass / mp3@319
fail, aac@256 pass / aac@255 fail, and every other codec passing at any
bitrate. -/
theorem quality_policy_modes :
    (∀ (fl : Bool) (codec : String) (bitrate : Int),
      check_quality_requirements true fl codec bitrate = false) ∧
    (∀ (codec : String) (bitrate : Int),
      check_quality_requirements false true codec bitrate = true ↔
        (codec = "alac" ∨ codec = "flac")) ∧
    (∀ (codec : String) (bitrate : Int),
      check_quality_requirements false false codec bitrate = true ↔
        ¬((codec = "mp3" ∧ bitrate < 320) ∨ (codec = "aac" ∧ bitrate < 256))) ∧
    check_quality_requirements false false "mp3" 320 = true ∧
    check_quality_requirements false false "mp3" 319 = false ∧
    check_quality_requirements false false "aac" 256 = true ∧
    check_quality_requirements false false "aac" 255 = false ∧
    (∀ (codec : String) (bitrate : Int), codec ≠ "mp3" → codec ≠ "aac" →
      check_quality_requirements false false codec bitrate = true) := by
  refine ⟨fun fl codec bitrate => rfl, fun codec bitrate => ?_, fun codec bitrate => ?_,
    by decide, by decide, by decide, by decide, fun codec bitrate h1 h2 => ?_⟩
  · simp [check_quality_requirements]
  · simp [check_quality_requirements, not_or, imp_iff_not_or]
  · simp [check_quality_requirements, h1, h2]

/-- Witness for C1 at a concrete input: a "flac" track passes the default
quality bar at any bitrate. -/
theorem quality_policy_modes_witness :
    check_quality_requirements false false "flac" 100 = true :=
  quality_policy_modes.2.2.2.2.2.2.2 "flac" 100 (by decide) (by decide)

/-- C2 counterexample: the candidate with derived artist
"Artist A feat. B" survives ranking against an original with derived
artist "Artist A", even though the candidate's artist is not a substring
of the original's artist (the code at line 416 tests containment in the
opposite direction). -/
theorem artist_containment_counterexample :
    rank ⟨"Song", none, "Artist A", "mp3", some 128⟩
      [⟨"Song", some "Artist A feat. B", "X", "mp3", some 320⟩] =
      [⟨"Song", some "Artist A feat. B", "X", "mp3", some 320⟩] ∧
    pySubstr
      (casefold (artistName ⟨"Song", some "Artist A feat. B", "X", "mp3", some 320⟩))
      (casefold (artistName ⟨"Song", none, "Artist A", "mp3", some 128⟩)) = false := by
  decide

/-- C2 amended: every candidate in the ranked output has an artist that
case-insensitively CONTAINS the original's derived artist name (the
containment direction is original-in-candidate, the reverse of the
claim's wording). -/
theorem artist_containment_amended :
    ∀ (item : Track) (searchResults : List Track) (r : Track),
    r ∈ rank item searchResults →
    pySubstr (casefold (artistName item)) (casefold (artistName r)) = true := by
  intro item searchResults r hr
  unfold rank at hr
  cases h : item.bitrate with
  | none => rw [h] at hr; simp at hr
  | some ob =>
    rw [h] at hr
    simp only [List.mem_insertionSort] at hr
    exact (List.mem_filter.mp hr).2

/-- Witness for C2 amended at the counterexample input. -/
theorem artist_containment_amended_witness :
    pySubstr
      (casefold (artistName ⟨"Song", none, "Artist A", "mp3", some 128⟩))
      (casefold (artistName ⟨"Song", some "Artist A feat. B", "X", "mp3", some 320⟩)) =
      true :=
  artist_containment_amended ⟨"Song", none, "Artist A", "mp3", some 128⟩
    [⟨"Song", some "Artist A feat. B", "X", "mp3", some 320⟩]
    ⟨"Song", some "Artist A feat. B", "X", "mp3", some 320⟩ (by decide)

/-- C3 counterexample: on a 3-candidate list, the out-of-range response
"5" is not treated as "no selection": the prompt loops, and a following
response "1" still selects candidate 1 — whereas an empty response
immediately yields no selection.  The two response streams differ in
outcome, refuting that an out-of-range response has the same outcome as
an empty one. -/
theorem manual_invalid_counterexample :
    manualLoop
      [⟨"t0", none, "A", "mp3", some 320⟩, ⟨"t1", none, "B", "mp3", some 300⟩,
       ⟨"t2", none, "C", "mp3", some 290⟩] [Resp.num 5, Resp.num 1] =
      some (some ⟨"t1", none, "B", "mp3", some 300⟩, []) ∧
    manualLoop
      [⟨"t0", none, "A", "mp3", some 320⟩, ⟨"t1", none, "B", "mp3", some 300⟩,
       ⟨"t2", none, "C", "mp3", some 290⟩] [Resp.empty, Resp.num 1] =
      some (none, [Resp.num 1]) := by
  decide

/-- C3 amended: an empty response yields no selection; a non-numeric or
out-of-range response makes the prompt retry on the remaining responses
(it is neither an error nor a no-selection); a response that is a valid
index (in particular an in-range non-negative `k`) selects that
candidate. -/
theorem manual_resolution_amended :
    ∀ (cs : List Track) (i : Int) (rest : List Resp),
    (manualLoop cs (Resp.empty :: rest) = some (none, rest)) ∧
    (manualLoop cs (Resp.junk :: rest) = manualLoop cs rest) ∧
    (pyGet cs i = none →
      manualLoop cs (Resp.num i :: rest) = manualLoop cs rest) ∧
    (∀ t, pyGet cs i = some t →
      manualLoop cs (Resp.num i :: rest) = some (some t, rest)) ∧
    (∀ (k : Nat) (t : Track), cs[k]? = some t →
      manualLoop cs (Resp.num (k : Int) :: rest) = some (some t, rest)) := by
  intro cs i rest
  refine ⟨rfl, rfl, fun h => ?_, fun t h => ?_, fun k t h => ?_⟩
  · simp [manualLoop, h]
  · simp [manualLoop, h]
  · have hp : pyGet cs (k : Int) = some t := by
      simpa [pyGet] using h
    simp [manualLoop, hp]

/-- Witness for C3 amended: a retry after an out-of-range response ends
in no selection on a later empty response; a valid response selects. -/
theorem manual_resolution_amended_witness :
    manualLoop [⟨"t0", none, "A", "mp3", some 320⟩] [Resp.num 7, Resp.empty] =
      some (none, []) ∧
    manualLoop [⟨"t0", none, "A", "mp3", some 320⟩] [Resp.num 0] =
      some (some ⟨"t0", none, "A", "mp3", some 320⟩, []) := by
  constructor
  · exact ((manual_resolution_amended [⟨"t0", none, "A", "mp3", some 320⟩] 7
      [Resp.empty]).2.2.1 (by decide)).trans
      ((manual_resolution_amended [⟨"t0", none, "A", "mp3", some 320⟩] 7 []).1)
  · exact (manual_resolution_amended [⟨"t0", none, "A", "mp3", some 320⟩] 0 []).2.2.2.1
      ⟨"t0", none, "A", "mp3", some 320⟩ (by decide)

/-- C5: every track in the ranked output has a resolvable bitrate that is
strictly greater than the original track's bitrate. -/
theorem rank_strict_upgrade :
    ∀ (item : Track) (searchResults : List Track) (r : Track),
    r ∈ rank item searchResults →
    ∃ (b ob : Int), r.bitrate = some b ∧ item.bitrate = some ob ∧ ob < b := by
  intro item searchResults r hr
  unfold rank at hr
  cases h : item.bitrate with
  | none => rw [h] at hr; simp at hr
  | some ob =>
    rw [h] at hr
    simp only [List.mem_insertionSort] at hr
    have h1 := (List.mem_filter.mp (List.mem_filter.mp hr).1).2
    cases hb : r.bitrate with
    | none => rw [hb] at h1; simp at h1
    | some b =>
      rw [hb] at h1
      simp only [Bool.and_eq_true, bne_iff_ne, decide_eq_true_eq] at h1
      exact ⟨b, ob, rfl, rfl, h1.2⟩

/-- Witness for C5 at a concrete input. -/
theorem rank_strict_upgrade_witness :
    ∃ (b ob : Int),
      (⟨"Song", some "Artist A feat. B", "X", "mp3", some 320⟩ : Track).bitrate =
        some b ∧
      (⟨"Song", none, "Artist A", "mp3", some 128⟩ : Track).bitrate = some ob ∧
      ob < b :=
  rank_strict_upgrade ⟨"Song", none, "Artist A", "mp3", some 128⟩
    [⟨"Song", some "Artist A feat. B", "X", "mp3", some 320⟩]
    ⟨"Song", some "Artist A feat. B", "X", "mp3", some 320⟩ (by decide)

/-- C6: in simple mode, a substandard track with a non-empty ranked
candidate list gets the first (highest-ranked) candidate queued for
addition and the track queued for removal; with an empty ranked list the
track is recorded as omitted. -/
theorem simple_mode_selection :
    ∀ (cfg : UpgradeConfig) (search : Track → List Track) (item : Track)
      (st : ScanState) (responses : List Resp),
    meetsQuality cfg item = false →
    (rank item (search item) = [] →
      scanItem cfg search true item st responses =
        some ({ st with omitted := st.omitted ++ [item] }, responses)) ∧
    (∀ r rs, rank item (search item) = r :: rs →
      scanItem cfg search true item st responses =
        some ({ st with toAdd := st.toAdd ++ [r],
                        toRemove := st.toRemove ++ [item] }, responses)) := by
  intro cfg search item st responses hmeets
  exact ⟨fun h => by simp [scanItem, hmeets, h],
    fun r rs h => by simp [scanItem, hmeets, h]⟩

/-- Witness for C6: both branches at concrete inputs. -/
theorem simple_mode_selection_witness :
    scanItem ⟨false, false⟩
      (fun _ => [⟨"Song", none, "Artist A", "flac", some 900⟩]) true
      ⟨"Song", none, "Artist A", "mp3", some 128⟩ ⟨[], [], []⟩ [] =
      some (⟨[⟨"Song", none, "Artist A", "mp3", some 128⟩],
             [⟨"Song", none, "Artist A", "flac", some 900⟩], []⟩, []) ∧
    scanItem ⟨false, false⟩ (fun _ => []) true
      ⟨"Song", none, "Artist A", "mp3", some 128⟩ ⟨[], [], []⟩ [] =
      some (⟨[], [], [⟨"Song", none, "Artist A", "mp3", some 128⟩]⟩, []) := by
  constructor
  · exact (simple_mode_selection ⟨false, false⟩
      (fun _ => [⟨"Song", none, "Artist A", "flac", some 900⟩])
      ⟨"Song", none, "Artist A", "mp3", some 128⟩ ⟨[], [], []⟩ [] (by decide)).2
      ⟨"Song", none, "Artist A", "flac", some 900⟩ [] (by decide)
  · exact (simple_mode_selection ⟨false, false⟩ (fun _ => [])
      ⟨"Song", none, "Artist A", "mp3", some 128⟩ ⟨[], [], []⟩ [] (by decide)).1
      (by decide)

/-- C10: in manual mode, a response parsing to `-k` with `1 ≤ k ≤ n` is a
valid Python negative index: it selects the candidate at position
`n - k` (counting from the front; `-1` is the last candidate), and that
candidate is queued for addition with the original queued for removal. -/
theorem negative_index_selection :
    ∀ (cfg : UpgradeConfig) (search : Track → List Track) (item : Track)
      (st : ScanState) (cs : List Track) (k : Nat) (t : Track)
      (rest : List Resp),
    1 ≤ k → k ≤ cs.length → cs[cs.length - k]? = some t →
    manualLoop cs (Resp.num (-(k : Int)) :: rest) = some (some t, rest) ∧
    (meetsQuality cfg item = false → rank item (search item) = cs →
      scanItem cfg search false item st (Resp.num (-(k : Int)) :: rest) =
        some ({ st with toAdd := st.toAdd ++ [t],
                        toRemove := st.toRemove ++ [item] }, rest)) := by
  intro cfg search item st cs k t rest hk hkl hg
  have htn : (-(-(k : Int))).toNat = k := by omega
  have hpy : pyGet cs (-(k : Int)) = some t := by
    rw [pyGet, if_neg (by omega), if_pos (by omega)]
    rw [htn]; exact hg
  have hml : manualLoop cs (Resp.num (-(k : Int)) :: rest) = some (some t, rest) := by
    simp [manualLoop, hpy]
  refine ⟨hml, fun hmeets hrank => ?_⟩
  rcases hcs : cs with _ | ⟨c, cs2⟩
  · rw [hcs] at hkl; simp at hkl; omega
  · rw [hcs] at hml
    simp [scanItem, hmeets, hrank, hcs, hml]

/-- Witness for C10: on a 2-candidate ranked list, the response "-1"
selects the last (lowest-ranked) candidate and queues it for addition. -/
theorem negative_index_selection_witness :
    scanItem ⟨false, false⟩
      (fun _ => [⟨"Song", some "Artist A feat. B", "X", "mp3", some 320⟩,
                 ⟨"Song", none, "Someone Else", "mp3", some 192⟩,
                 ⟨"Song", none, "Artist A", "flac", some 900⟩]) false
      ⟨"Song", none, "Artist A", "mp3", some 128⟩ ⟨[], [], []⟩
      [Resp.num (-1)] =
      some (⟨[⟨"Song", none, "Artist A", "mp3", some 128⟩],
             [⟨"Song", some "Artist A feat. B", "X", "mp3", some 320⟩], []⟩,
            []) :=
  (negative_index_selection ⟨false, false⟩
    (fun _ => [⟨"Song", some "Artist A feat. B", "X", "mp3", some 320⟩,
               ⟨"Song", none, "Someone Else", "mp3", some 192⟩,
               ⟨"Song", none, "Artist A", "flac", some 900⟩])
    ⟨"Song", none, "Artist A", "mp3", some 128⟩ ⟨[], [], []⟩
    [⟨"Song", none, "Artist A", "flac", some 900⟩,
     ⟨"Song", some "Artist A feat. B", "X", "mp3", some 320⟩] 1
    ⟨"Song", some "Artist A feat. B", "X", "mp3", some 320⟩ []
    (by decide) (by decide) (by decide)).2 (by decide) (by decide)

/-- The code-point lexicographic order is total. -/
theorem charsLe_total : ∀ (a b : List Char), charsLe a b = true ∨ charsLe b a = true
  | [], _ => Or.inl rfl
  | _ :: _, [] => Or.inr rfl
  | c :: cs, d :: ds => by
    rcases Nat.lt_trichotomy c.toNat d.toNat with h | h | h
    · left; simp [charsLe, h]
    · rcases charsLe_total cs ds with ih | ih
      · left; simp [charsLe, h, ih]
      · right; simp [charsLe, h.symm, ih]
    · right; simp [charsLe, h]

/-- The code-point lexicographic order is transitive. -/
theorem charsLe_trans : ∀ {a b c : List Char},
    charsLe a b = true → charsLe b c = true → charsLe a c = true
  | [], _, _, _, _ => rfl
  | _ :: _, [], _, h, _ => by simp [charsLe] at h
  | _ :: _, _ :: _, [], _, h => by simp [charsLe] at h
  | x :: xs, y :: ys, z :: zs, h1, h2 => by
    simp only [charsLe, Bool.or_eq_true, Bool.and_eq_true, decide_eq_true_eq,
      beq_iff_eq] at h1 h2 ⊢
    rcases h1 with h1 | ⟨he1, hr1⟩
    · rcases h2 with h2 | ⟨he2, hr2⟩
      · exact Or.inl (h1.trans h2)
      · exact Or.inl (he2 ▸ h1)
    · rcases h2 with h2 | ⟨he2, hr2⟩
      · exact Or.inl (he1.symm ▸ h2)
      · exact Or.inr ⟨he1.trans he2, charsLe_trans hr1 hr2⟩

/-- Totality of the embedded Python string order. -/
theorem strLe_total (a b : String) : strLe a b = true ∨ strLe b a = true :=
  charsLe_total a.data b.data

/-- Transitivity of the embedded Python string order. -/
theorem strLe_trans {a b c : String} (h1 : strLe a b = true)
    (h2 : strLe b c = true) : strLe a c = true :=
  charsLe_trans h1 h2

/-- Inserting into a list already pairwise-ordered by "bitrate
descending, ties related by `Q`" preserves that shape, provided the
inserted element is `Q`-below every element (it came earlier in the
`Q`-sorted input).  This is the stability argument for the second sort. -/
theorem pairwise_orderedInsert_tie {Q : Track → Track → Prop} (x : Track) :
    ∀ (l : List Track),
    l.Pairwise (fun a b => bitKey b ≤ bitKey a ∧ (bitKey a = bitKey b → Q a b)) →
    (∀ y ∈ l, Q x y) →
    (l.orderedInsert (fun a b => bitKey b ≤ bitKey a) x).Pairwise
      (fun a b => bitKey b ≤ bitKey a ∧ (bitKey a = bitKey b → Q a b)) := by
  intro l
  induction l with
  | nil => intro _ _; simp [List.orderedInsert]
  | cons b l ih =>
    intro hpw hq
    rw [List.orderedInsert]
    split_ifs with hr
    · refine List.Pairwise.cons ?_ hpw
      intro z hz
      rcases List.mem_cons.mp hz with rfl | hz2
      · exact ⟨hr, fun _ => hq z (List.mem_cons_self _ _)⟩
      · have hbz := (List.pairwise_cons.mp hpw).1 z hz2
        exact ⟨le_trans hbz.1 hr, fun _ => hq z (List.mem_cons_of_mem b hz2)⟩
    · have hlt : bitKey x < bitKey b := lt_of_not_le hr
      refine List.Pairwise.cons ?_
        (ih (List.pairwise_cons.mp hpw).2
          (fun y hy => hq y (List.mem_cons_of_mem b hy)))
      intro z hz
      rcases (List.mem_orderedInsert _).mp hz with rfl | hz2
      · exact ⟨le_of_lt hlt, fun hbx => absurd hbx (by omega)⟩
      · exact (List.pairwise_cons.mp hpw).1 z hz2

/-- A stable sort by bitrate descending of a list pairwise-ordered by `Q`
yields a list pairwise-ordered by "bitrate descending, equal-bitrate
pairs still related by `Q`". -/
theorem pairwise_bitSort {Q : Track → Track → Prop} :
    ∀ (l : List Track), l.Pairwise Q →
    (l.insertionSort fun a b => bitKey b ≤ bitKey a).Pairwise
      (fun a b => bitKey b ≤ bitKey a ∧ (bitKey a = bitKey b → Q a b)) := by
  intro l
  induction l with
  | nil => intro _; simp [List.insertionSort]
  | cons x xs ih =>
    intro hpw
    rw [List.insertionSort]
    exact pairwise_orderedInsert_tie x _
      (ih (List.pairwise_cons.mp hpw).2)
      (fun y hy => (List.pairwise_cons.mp hpw).1 y
        ((List.mem_insertionSort _).mp hy))

/-- C4 counterexample: two equal-bitrate candidates come out of the
ranking with their DERIVED artist names in descending order ("Z" before
"A").  The artist sort keys on `originalTitle is not None`, so an
empty-string `originalTitle` sorts as `""` while the derived artist
(`originalTitle or grandparentTitle`) falls back to the album artist. -/
theorem ranking_order_counterexample :
    rank ⟨"S", none, "", "mp3", some 100⟩
      [⟨"S", some "", "Z", "mp3", some 500⟩, ⟨"S", none, "A", "mp3", some 500⟩] =
      [⟨"S", some "", "Z", "mp3", some 500⟩, ⟨"S", none, "A", "mp3", some 500⟩] ∧
    bitKey ⟨"S", some "", "Z", "mp3", some 500⟩ =
      bitKey ⟨"S", none, "A", "mp3", some 500⟩ ∧
    strLe (artistName ⟨"S", some "", "Z", "mp3", some 500⟩)
      (artistName ⟨"S", none, "A", "mp3", some 500⟩) = false := by
  decide

/-- C4 amended: the ranked output is sorted by bitrate descending, and
among equal bitrates ascending by the artist SORT KEY (`originalTitle`
when not `None`, else `grandparentTitle`) — which coincides with the
derived artist name except when `originalTitle` is the empty string. -/
theorem ranking_sorted_amended :
    ∀ (item : Track) (searchResults : List Track),
    (rank item searchResults).Pairwise
      (fun a b => bitKey b ≤ bitKey a ∧
        (bitKey a = bitKey b → strLe (sortKey a) (sortKey b) = true)) ∧
    (∀ t : Track, t.originalTitle ≠ some "" → sortKey t = artistName t) := by
  intro item searchResults
  constructor
  · unfold rank
    cases item.bitrate with
    | none => simp
    | some ob =>
      apply pairwise_bitSort
      haveI : IsTotal Track (fun a b => strLe (sortKey a) (sortKey b) = true) :=
        ⟨fun a b => strLe_total _ _⟩
      haveI : IsTrans Track (fun a b => strLe (sortKey a) (sortKey b) = true) :=
        ⟨fun _ _ _ => strLe_trans⟩
      exact List.sorted_insertionSort _ _
  · intro t ht
    cases h : t.originalTitle with
    | none => simp [sortKey, artistName, h]
    | some s =>
      rw [h] at ht
      have hs : s ≠ "" := fun he => ht (by rw [he])
      simp [sortKey, artistName, h, hs]

/-- Witness for C4 amended: on a track whose originalTitle is present and
non-empty, the sort key agrees with the derived artist name. -/
theorem ranking_sorted_amended_witness :
    sortKey (⟨"Song", some "Artist A feat. B", "X", "mp3", some 320⟩ : Track) =
      artistName ⟨"Song", some "Artist A feat. B", "X", "mp3", some 320⟩ :=
  (ranking_sorted_amended ⟨"S", none, "", "mp3", some 100⟩ []).2
    ⟨"Song", some "Artist A feat. B", "X", "mp3", some 320⟩ (by decide)

/-- In simple mode the scan never consults the response stream: the
resulting state is a function of the items alone and the stream is
passed through untouched. -/
theorem scanItems_simple_const (cfg : UpgradeConfig)
    (search : Track → List Track) :
    ∀ (items : List Track) (st : ScanState), ∃ st2 : ScanState,
      ∀ responses, scanItems cfg search true items st responses =
        some (st2, responses) := by
  intro items
  induction items with
  | nil => exact fun st => ⟨st, fun _ => rfl⟩
  | cons i is ih =>
    intro st
    by_cases hm : meetsQuality cfg i = true
    · obtain ⟨st2, h2⟩ := ih st
      exact ⟨st2, fun r => by simp [scanItems, scanItem, hm, h2 r]⟩
    · have hm2 : meetsQuality cfg i = false := by simpa using hm
      rcases hr : rank i (search i) with _ | ⟨c, cs⟩
      · obtain ⟨st2, h2⟩ := ih { st with omitted := st.omitted ++ [i] }
        exact ⟨st2, fun r => by simp [scanItems, scanItem, hm2, hr, h2 r]⟩
      · obtain ⟨st2, h2⟩ := ih
          { st with toAdd := st.toAdd ++ [c], toRemove := st.toRemove ++ [i] }
        exact ⟨st2, fun r => by simp [scanItems, scanItem, hm2, hr, h2 r]⟩

/-- C7: with `dry = true` (and the `__main__` wiring forcing simple mode
on and duplication off), the upgrade issues no effect at all — in
particular no remove or add — returns the playlist handle unmodified,
produces a scan state independent of the interactive response stream,
and that scan state is exactly the one a non-dry run (simple mode, no
duplication) produces from the same catalog responses. -/
theorem dry_run_frame :
    ∀ (cfg : UpgradeConfig) (search : Track → List Track) (freshPid : Nat)
      (pl : Playlist) (userSimple userDup : Bool)
      (responses responses2 : List Resp),
    ∃ st : ScanState,
      upgrade_playlist cfg search freshPid pl (mainModeDuplicate true userDup)
        (mainModeSimple true userSimple) true responses = some ⟨pl, [], st⟩ ∧
      upgrade_playlist cfg search freshPid pl (mainModeDuplicate true userDup)
        (mainModeSimple true userSimple) true responses2 = some ⟨pl, [], st⟩ ∧
      ∃ fx : List Effect,
        upgrade_playlist cfg search freshPid pl false true false responses =
          some ⟨pl, fx, st⟩ := by
  intro cfg search freshPid pl us ud r1 r2
  obtain ⟨st, hscan⟩ := scanItems_simple_const cfg search pl.tracks ⟨[], [], []⟩
  refine ⟨st, ?_, ?_,
    (if st.toRemove.length ≠ 0 then [Effect.removeItems pl.pid st.toRemove]
      else []) ++
    (if st.toAdd.length ≠ 0 then [Effect.addItems pl.pid st.toAdd] else []), ?_⟩
  · simp [upgrade_playlist, mainModeDuplicate, mainModeSimple, hscan r1]
  · simp [upgrade_playlist, mainModeDuplicate, mainModeSimple, hscan r2]
  · simp [upgrade_playlist, hscan r1]

/-- A defined Python index denotes an element of the list. -/
theorem pyGet_mem {α : Type} {xs : List α} {i : Int} {t : α}
    (h : pyGet xs i = some t) : t ∈ xs := by
  unfold pyGet at h
  split_ifs at h
  · exact List.getElem?_mem h
  · exact List.getElem?_mem h

/-- A candidate selected by the manual-mode loop comes from the
candidate list. -/
theorem manualLoop_mem : ∀ {cs : List Track} {rs : List Resp} {t : Track}
    {rest : List Resp}, manualLoop cs rs = some (some t, rest) → t ∈ cs := by
  intro cs rs
  induction rs with
  | nil => intro t rest h; simp [manualLoop] at h
  | cons r rs ih =>
    intro t rest h
    cases r with
    | empty => simp [manualLoop] at h
    | junk =>
      rw [manualLoop] at h
      exact ih h
    | num i =>
      rw [manualLoop] at h
      cases hp : pyGet cs i with
      | some u =>
        rw [hp] at h
        simp only [Option.some.injEq, Prod.mk.injEq] at h
        rw [← h.1]
        exact pyGet_mem hp
      | none =>
        rw [hp] at h
        exact ih h

/-- One scan iteration changes the accumulator state in exactly one of
three ways: kept (unchanged), omitted (item appended to `omitted`), or
replaced (item appended to `toRemove` and a member of its ranked
candidate list appended to `toAdd`). -/
theorem scanItem_delta {cfg : UpgradeConfig} {search : Track → List Track}
    {simple : Bool} {item : Track} {st : ScanState} {rs : List Resp}
    {st2 : ScanState} {rs2 : List Resp}
    (h : scanItem cfg search simple item st rs = some (st2, rs2)) :
    st2 = st ∨
    st2 = { st with omitted := st.omitted ++ [item] } ∨
    ∃ r, r ∈ rank item (search item) ∧
      st2 = { st with toRemove := st.toRemove ++ [item],
                      toAdd := st.toAdd ++ [r] } := by
  have pinj : ∀ {a b : ScanState} {x y : List Resp},
      (some (a, x) : Option (ScanState × List Resp)) = some (b, y) → b = a := by
    intro a b x y hh
    cases hh
    rfl
  unfold scanItem at h
  by_cases hm : meetsQuality cfg item
  · rw [if_pos hm] at h
    exact Or.inl (pinj h)
  · rw [if_neg hm] at h
    rcases hr : rank item (search item) with _ | ⟨c, cs⟩
    · rw [hr] at h
      exact Or.inr (Or.inl (pinj h))
    · rw [hr] at h
      cases simple with
      | true =>
        exact Or.inr (Or.inr ⟨c, List.mem_cons_self _ _, pinj h⟩)
      | false =>
        cases hml : manualLoop (c :: cs) rs with
        | none =>
          rw [hml] at h
          exact Option.noConfusion h
        | some p =>
          rcases p with ⟨oc, rest⟩
          cases oc with
          | some repl =>
            rw [hml] at h
            exact Or.inr (Or.inr ⟨repl, manualLoop_mem hml, pinj h⟩)
          | none =>
            rw [hml] at h
            exact Or.inr (Or.inl (pinj h))

/-- The scan only ever appends: relative to the initial accumulators, it
contributes a list of (removed, added) pairs — each added track a member
of the removed track's ranked candidates — and a list of omitted
tracks, and the per-track occurrence count of removed plus omitted
contributions is bounded by that track's occurrences among the scanned
items. -/
theorem scanItems_delta {cfg : UpgradeConfig} {search : Track → List Track}
    {simple : Bool} :
    ∀ (items : List Track) (st : ScanState) (rs : List Resp)
      {st2 : ScanState} {rs2 : List Resp},
    scanItems cfg search simple items st rs = some (st2, rs2) →
    ∃ (pairs : List (Track × Track)) (oms : List Track),
      st2.toRemove = st.toRemove ++ pairs.map Prod.fst ∧
      st2.toAdd = st.toAdd ++ pairs.map Prod.snd ∧
      st2.omitted = st.omitted ++ oms ∧
      (∀ p ∈ pairs, p.2 ∈ rank p.1 (search p.1)) ∧
      (∀ t : Track,
        (pairs.map Prod.fst).count t + oms.count t ≤ items.count t) := by
  intro items
  induction items with
  | nil =>
    intro st rs st2 rs2 h
    simp only [scanItems, Option.some.injEq, Prod.mk.injEq] at h
    exact ⟨[], [], by simp [← h.1], by simp [← h.1], by simp [← h.1],
      by simp, by simp⟩
  | cons i is ih =>
    intro st rs st2 rs2 h
    rw [scanItems] at h
    cases hsi : scanItem cfg search simple i st rs with
    | none => rw [hsi] at h; exact absurd h (by simp)
    | some p =>
      rw [hsi] at h
      rcases p with ⟨st1, rs1⟩
      obtain ⟨pairs, oms, h1, h2, h3, h4, h5⟩ := ih st1 rs1 h
      rcases scanItem_delta hsi with hd | hd | ⟨r, hrm, hd⟩
      · subst hd
        refine ⟨pairs, oms, h1, h2, h3, h4, fun t => ?_⟩
        have := h5 t
        rw [List.count_cons]
        split_ifs <;> omega
      · refine ⟨pairs, i :: oms, ?_, ?_, ?_, h4, fun t => ?_⟩
        · rw [h1, hd]
        · rw [h2, hd]
        · rw [h3, hd]; simp
        · have := h5 t
          rw [List.count_cons, List.count_cons]
          split_ifs <;> omega
      · refine ⟨(i, r) :: pairs, oms, ?_, ?_, ?_, ?_, fun t => ?_⟩
        · rw [h1, hd]; simp
        · rw [h2, hd]; simp
        · rw [h3, hd]
        · intro p hp
          rcases List.mem_cons.mp hp with rfl | hp2
          · exact hrm
          · exact h4 p hp2
        · have := h5 t
          simp only [List.map_cons]
          rw [List.count_cons, List.count_cons]
          split_ifs <;> omega

/-- C8: after a completed scan starting from empty accumulators, each
track's occurrences in `items_to_remove` plus `items_omitted` are
bounded by its occurrences in the playlist (so for a duplicate-free
playlist a track appears in at most one of the two lists), and
`items_to_add` corresponds 1:1 by position to `items_to_remove`: they
have equal length and the entry at index `i` of `items_to_add` is a
member of the ranked replacement candidates of the track at index `i`
of `items_to_remove` — the replacement chosen for it. -/
theorem scan_invariants :
    ∀ (cfg : UpgradeConfig) (search : Track → List Track) (simple : Bool)
      (items : List Track) (responses : List Resp) (st : ScanState)
      (rest : List Resp),
    scanItems cfg search simple items ⟨[], [], []⟩ responses = some (st, rest) →
    (∀ t : Track, st.toRemove.count t + st.omitted.count t ≤ items.count t) ∧
    (items.Nodup → ∀ t : Track, t ∈ st.toRemove → t ∉ st.omitted) ∧
    st.toAdd.length = st.toRemove.length ∧
    (∀ (i : Nat) (r a : Track), st.toRemove[i]? = some r →
      st.toAdd[i]? = some a → a ∈ rank r (search r)) := by
  intro cfg search simple items responses st rest h
  obtain ⟨pairs, oms, h1, h2, h3, h4, h5⟩ := scanItems_delta items _ _ h
  simp only [List.nil_append] at h1 h2 h3
  refine ⟨fun t => by rw [h1, h3]; exact h5 t, fun hnd t htr hto => ?_, ?_, ?_⟩
  · have hc := h5 t
    have h1c : 1 ≤ (pairs.map Prod.fst).count t := by
      rw [h1] at htr
      exact List.one_le_count_iff.mpr htr
    have h2c : 1 ≤ oms.count t := by
      rw [h3] at hto
      exact List.one_le_count_iff.mpr hto
    have hn : items.count t ≤ 1 := List.nodup_iff_count_le_one.mp hnd t
    omega
  · rw [h1, h2]; simp
  · intro i r a hri hai
    rw [h1] at hri
    rw [h2] at hai
    rw [List.getElem?_map] at hri hai
    cases hp : pairs[i]? with
    | none => rw [hp] at hri; exact absurd hri (by simp)
    | some q =>
      rw [hp] at hri hai
      simp only [Option.map_some', Option.some.injEq] at hri hai
      have hq : q ∈ pairs := List.getElem?_mem hp
      rw [← hri, ← hai]
      exact h4 q hq

/-- Witness for C8: a concrete completed scan, with the positional
correspondence instantiated at index 0. -/
theorem scan_invariants_witness :
    (⟨"Song", none, "Artist A", "flac", some 900⟩ : Track) ∈
      rank ⟨"Song", none, "Artist A", "mp3", some 128⟩
        ((fun _ => [⟨"Song", none, "Artist A", "flac", some 900⟩])
          (⟨"Song", none, "Artist A", "mp3", some 128⟩ : Track)) :=
  (scan_invariants ⟨false, false⟩
    (fun _ => [⟨"Song", none, "Artist A", "flac", some 900⟩]) true
    [⟨"Song", none, "Artist A", "mp3", some 128⟩] []
    ⟨[⟨"Song", none, "Artist A", "mp3", some 128⟩],
     [⟨"Song", none, "Artist A", "flac", some 900⟩], []⟩ []
    (by decide)).2.2.2 0
    ⟨"Song", none, "Artist A", "mp3", some 128⟩
    ⟨"Song", none, "Artist A", "flac", some 900⟩ (by decide) (by decide)

/-- C9: with `duplicate = true` and `dry = false`, the run first creates
a playlist titled `"Copy of " ++ title` with the same tracks, summary and
playlist type (the first effect issued), returns that new playlist, and
every remove/add mutation targets the new playlist's id — none targets
the original playlist. -/
theorem duplicate_mode :
    ∀ (cfg : UpgradeConfig) (search : Track → List Track) (freshPid : Nat)
      (pl : Playlist) (simple : Bool) (responses : List Resp)
      (res : UpgradeResult),
    freshPid ≠ pl.pid →
    upgrade_playlist cfg search freshPid pl true simple false responses =
      some res →
    res.playlist.pid = freshPid ∧
    res.playlist.title = "Copy of " ++ pl.title ∧
    res.playlist.summary = pl.summary ∧
    res.playlist.playlistType = pl.playlistType ∧
    res.playlist.tracks = pl.tracks ∧
    res.effects.head? = some (Effect.create freshPid ("Copy of " ++ pl.title)
      pl.summary pl.playlistType pl.tracks) ∧
    (∀ e ∈ res.effects, ∀ p, mutatesPid e = some p → p = freshPid) ∧
    (∀ e ∈ res.effects, mutatesPid e ≠ some pl.pid) := by
  intro cfg search freshPid pl simple responses res hne hup
  unfold upgrade_playlist at hup
  simp only [Bool.and_self, Bool.not_false, Bool.and_true, if_true] at hup
  cases hs : scanItems cfg search simple pl.tracks ⟨[], [], []⟩ responses with
  | none => rw [hs] at hup; exact Option.noConfusion hup
  | some p =>
    rcases p with ⟨st, rest⟩
    rw [hs] at hup
    have hres : res =
        ⟨⟨freshPid, "Copy of " ++ pl.title, pl.summary, pl.playlistType,
          pl.tracks⟩,
         [Effect.create freshPid ("Copy of " ++ pl.title) pl.summary
            pl.playlistType pl.tracks] ++
          (if st.toRemove.length ≠ 0 then
            [Effect.removeItems freshPid st.toRemove] else []) ++
          (if st.toAdd.length ≠ 0 then
            [Effect.addItems freshPid st.toAdd] else []),
         st⟩ := by
      cases hup
      rfl
    subst hres
    refine ⟨rfl, rfl, rfl, rfl, rfl, rfl, ?_, ?_⟩
    · intro e he p hp
      simp only [List.mem_append, List.mem_singleton] at he
      rcases he with (he | he) | he
      · subst he; exact absurd hp (by simp [mutatesPid])
      · split_ifs at he with hc
        · rw [List.mem_singleton] at he
          subst he
          simp only [mutatesPid, Option.some.injEq] at hp
          exact hp.symm
        · exact absurd he (by simp)
      · split_ifs at he with hc
        · rw [List.mem_singleton] at he
          subst he
          simp only [mutatesPid, Option.some.injEq] at hp
          exact hp.symm
        · exact absurd he (by simp)
    · intro e he hp
      simp only [List.mem_append, List.mem_singleton] at he
      rcases he with (he | he) | he
      · subst he; exact absurd hp (by simp [mutatesPid])
      · split_ifs at he with hc
        · rw [List.mem_singleton] at he
          subst he
          simp only [mutatesPid, Option.some.injEq] at hp
          exact hne (by omega)
        · exact absurd he (by simp)
      · split_ifs at he with hc
        · rw [List.mem_singleton] at he
          subst he
          simp only [mutatesPid, Option.some.injEq] at hp
          exact hne (by omega)
        · exact absurd he (by simp)

/-- Witness for C9 at a concrete input: the returned playlist is the
fresh copy titled "Copy of Favorites". -/
theorem duplicate_mode_witness :
    (⟨⟨1, "Copy of Favorites", "s", "audio", []⟩,
      [Effect.create 1 "Copy of Favorites" "s" "audio" []],
      ⟨[], [], []⟩⟩ : UpgradeResult).playlist.title = "Copy of Favorites" :=
  (duplicate_mode ⟨false, false⟩ (fun _ => []) 1
    ⟨0, "Favorites", "s", "audio", []⟩ true []
    ⟨⟨1, "Copy of Favorites", "s", "audio", []⟩,
     [Effect.create 1 "Copy of Favorites" "s" "audio" []],
     ⟨[], [], []⟩⟩ (by decide) (by decide)).2.1

end PlexUpgrade
